import Mathlib

/-!
Shallow embedding of the HCCB color-barcode codec (hccbSvg.py, hccb_reader.py,
hccb-opencv.py) and verification of its specification claims.

Conventions of the embedding:
* Python floats become exact rationals (`ℚ`); the geometric computations of the
  source are plain field arithmetic, so rationals model them faithfully.
* Byte values and symbol indices become `ℕ`; the source expression
  `(value >> (i * shift)) & mask` with `mask = 2 ^ shift - 1` is written as
  `value / 2 ^ (i * shift) % 2 ^ shift`, its exact arithmetic meaning.
* Colors keep their concrete representation from each module (hex strings on the
  SVG encode side); on the OpenCV decode side the color NAMES of `COLOR_LIST`
  are in bijection with their indices (`COLOR_LIST.index`), so the decode-side
  functions are stated over the indices, which is the quantity the code computes
  from the names.
* `math.sqrt(rows / base_rows)` has no rational counterpart; the scale factor is
  passed to `calculate_dynamic_spec` as an explicit parameter `sqrt_scale`. For
  `rows = 0` the true value is `0`; for `rows ≥ 1` it is some positive number,
  and the theorems only use those two facts.
* Python raises `ZeroDivisionError` when a float is divided by `0.0`; the one
  place this can happen (`max_width / barcode_dimensions.width`) is modelled by
  an explicit check returning `Except.error`.
-/

namespace HCCB

/-- `Dim` dataclass of hccbSvg.py: a width/height pair. -/
structure Dim where
  width : ℚ
  height : ℚ
deriving DecidableEq

/-- `Pad` dataclass of hccbSvg.py: a 4-sided inset. -/
structure Pad where
  left : ℚ
  right : ℚ
  top : ℚ
  bottom : ℚ
deriving DecidableEq

/-- `Size` dataclass of hccbSvg.py: a grid size in rows and columns. -/
structure Size where
  rows : ℕ
  cols : ℕ
deriving DecidableEq

/-- `Specification` dataclass of hccbSvg.py. -/
structure Specification where
  bits : ℕ
  size : Size
  white_frame_pad : Pad
  black_background_pad : Pad
  white_strip_height : ℚ
  row_inset : ℚ
  triangle_dim : Dim
deriving DecidableEq

/-- `FOUR_COLOR_MAP` of hccbSvg.py (hex color strings). -/
def FOUR_COLOR_MAP : List String :=
  ["#000000", "#FFFF45", "#12FF0E", "#FF1400"]

/-- `EIGHT_COLOR_MAP` of hccbSvg.py (hex color strings). -/
def EIGHT_COLOR_MAP : List String :=
  ["#000000", "#FAFD28", "#1CEC12", "#DF0203",
   "#FAFAFA", "#1EF6EE", "#F38BED", "#1833DE"]

/-- The palette chosen from `bits`, as in `data_to_colors` and `colors_prefix`
of hccbSvg.py: `FOUR_COLOR_MAP if bits == 2 else EIGHT_COLOR_MAP`. -/
def color_map (bits : ℕ) : List String :=
  if bits = 2 then FOUR_COLOR_MAP else EIGHT_COLOR_MAP

/-- The symbol indices produced by `data_to_colors` (hccbSvg.py lines 112-121)
before the palette lookup: for each byte `value` of `data` it emits, for
`i in range(8 // bits)`, the index `(value >> (i * shift)) & mask` with
`shift = bits` and `mask = 2 ^ bits - 1`, written here in div/mod form. -/
def data_to_symbols (bits : ℕ) (data : List ℕ) : List ℕ :=
  data.flatMap (fun value =>
    (List.range (8 / bits)).map (fun i => value / 2 ^ (i * bits) % 2 ^ bits))

/-- `data_to_colors` of hccbSvg.py: the symbol indices mapped through the
palette (`colors.append(color_map[index])`); every emitted index is below the
palette length, so `getD` with an unused default models the list indexing. -/
def data_to_colors (bits : ℕ) (data : List ℕ) : List String :=
  (data_to_symbols bits data).map (fun index => (color_map bits).getD index ("#"))

/-- `colors_prefix` of hccbSvg.py lines 124-126: the full palette repeated
twice (`colors * 2`). Named `sync_colors` in this development. -/
def sync_colors (bits : ℕ) : List String :=
  color_map bits ++ color_map bits

/-- Line 297 of hccbSvg.py (`barcode`):
`colored_data = colors_prefix(spec.bits) + data_to_colors(spec.bits, encoded_data)`. -/
def colored_data (bits : ℕ) (encoded : List ℕ) : List String :=
  sync_colors bits ++ data_to_colors bits encoded

/-- The data indices read by `draw_triangles` (hccbSvg.py lines 165-182): for
every `i in range(rows)` and `j in range(cols)` it reads
`data[i * spec.size.cols + j]`. -/
def draw_triangles_reads (size : Size) : List ℕ :=
  (List.range size.rows).flatMap (fun i =>
    (List.range size.cols).map (fun j => i * size.cols + j))

/-- The bit string emitted for one symbol index by `decode_colors`
(hccb-opencv.py lines 111-121): indices 0-3 (the names BLACK, YELLOW, GREEN,
RED in `COLOR_LIST`) are formatted as 2-bit binary strings (`f"{idx:02b}"`),
all other indices as 3-bit strings (`f"{idx:03b}"`); bits most significant
first, each bit a 0/1 number. -/
def symbol_bits (index : ℕ) : List ℕ :=
  if index < 4 then [index / 2 % 2, index % 2]
  else [index / 4 % 2, index / 2 % 2, index % 2]

/-- The regrouping `bits[i : i + 8] for i in range(0, len(bits), 8)` of
`decode_colors`: consecutive chunks of 8, the final chunk possibly shorter. -/
def chunks8 : List ℕ → List (List ℕ)
  | [] => []
  | b0 :: b1 :: b2 :: b3 :: b4 :: b5 :: b6 :: b7 :: rest =>
      [b0, b1, b2, b3, b4, b5, b6, b7] :: chunks8 rest
  | l => [l]

/-- `int("".join(map(str, chunk)), 2)`: a list of 0/1 bits, most significant
first, read as a binary number. -/
def byte_of_bits (chunk : List ℕ) : ℕ :=
  chunk.foldl (fun acc b => 2 * acc + b) 0

/-- `decode_colors` of hccb-opencv.py lines 111-121, over symbol indices (the
code stores color names and recovers the index with `COLOR_LIST.index`):
concatenate the per-symbol bit strings over the grid in row-major order, then
turn every 8-wide slice (the last one possibly shorter) into a byte. -/
def decode_colors (color_grid : List (List ℕ)) : List ℕ :=
  (chunks8 ((color_grid.flatten).flatMap symbol_bits)).map byte_of_bits

/-- `base_spec` of `calculate_dynamic_spec` (hccbSvg.py lines 203-211). -/
def base_spec : Specification :=
  { bits := 3
    size := { rows := 12, cols := 24 }
    white_frame_pad := { left := 20.87, right := 20.87, top := 20.87, bottom := 20.87 }
    black_background_pad := { left := 8.94, right := 8.94, top := 8.94, bottom := 8.94 }
    white_strip_height := 5.96
    row_inset := 5.96
    triangle_dim := { width := 25.48, height := 20.87 } }

/-- `required_triangles = math.ceil(data_length * 8 / base_spec.bits)` with
`base_spec.bits = 3` (hccbSvg.py line 214): the exact ceiling of
`data_length * 8 / 3`, which over naturals is `(data_length * 8 + 2) / 3`. -/
def required_triangles (data_length : ℕ) : ℕ :=
  (data_length * 8 + 2) / 3

/-- `cols = base_spec.size.cols` (hccbSvg.py line 217). -/
def grid_cols : ℕ := 24

/-- `rows = math.ceil(required_triangles / cols)` (hccbSvg.py line 218). -/
def grid_rows (data_length : ℕ) : ℕ :=
  (required_triangles data_length + 23) / 24

/-- The field-by-field multiplication of every linear dimension of a
`Specification` by a scalar, as done twice inside `calculate_dynamic_spec`
with the generator expressions `p * scale_factor for p in astuple(...)`. -/
def scale_spec (c : ℚ) (spec : Specification) : Specification :=
  { bits := spec.bits
    size := spec.size
    white_frame_pad :=
      { left := spec.white_frame_pad.left * c
        right := spec.white_frame_pad.right * c
        top := spec.white_frame_pad.top * c
        bottom := spec.white_frame_pad.bottom * c }
    black_background_pad :=
      { left := spec.black_background_pad.left * c
        right := spec.black_background_pad.right * c
        top := spec.black_background_pad.top * c
        bottom := spec.black_background_pad.bottom * c }
    white_strip_height := spec.white_strip_height * c
    row_inset := spec.row_inset * c
    triangle_dim :=
      { width := spec.triangle_dim.width * c
        height := spec.triangle_dim.height * c } }

/-- `triangle_row_dim` of hccbSvg.py lines 139-142. -/
def triangle_row_dim (spec : Specification) : Dim :=
  { width := spec.triangle_dim.width * (spec.size.cols : ℚ) / 2
    height := spec.triangle_dim.height + spec.white_strip_height }

/-- `barcode_dim` of hccbSvg.py lines 145-162. Note the height sums the top
frame pad, the TOP background pad only, `(rows + 1)` row heights, and the
bottom frame pad — the bottom background pad does not appear in the source. -/
def barcode_dim (spec : Specification) : Dim :=
  { width :=
      spec.white_frame_pad.left
      + spec.black_background_pad.left
      + spec.row_inset
      + (triangle_row_dim spec).width
      + spec.row_inset
      + spec.black_background_pad.right
      + spec.white_frame_pad.right
    height :=
      spec.white_frame_pad.top
      + spec.black_background_pad.top
      + (triangle_row_dim spec).height * ((spec.size.rows : ℚ) + 1)
      + spec.white_frame_pad.bottom }

/-- The total height as the specification text states it: both frame pads,
BOTH background pads, and `(rows + 1)` row heights. Written from the spec
sentence for comparison with the source function `barcode_dim`. -/
def spec_stated_height (spec : Specification) : ℚ :=
  spec.white_frame_pad.top + spec.white_frame_pad.bottom
  + spec.black_background_pad.top + spec.black_background_pad.bottom
  + (spec.triangle_dim.height + spec.white_strip_height) * ((spec.size.rows : ℚ) + 1)

/-- `calculate_dynamic_spec` of hccbSvg.py lines 202-253. `sqrt_scale` stands
for `math.sqrt(rows / base_spec.size.rows)` (see the module docstring); the
final uniform rescale divides by the computed barcode dimensions, and Python
raises `ZeroDivisionError` when such a float divisor is exactly zero, which is
modelled by the explicit check. -/
def calculate_dynamic_spec (sqrt_scale : ℚ) (data_length : ℕ)
    (max_width max_height : ℚ) : Except String Specification :=
  let rows := grid_rows data_length
  let spec := scale_spec sqrt_scale
    { base_spec with size := { rows := rows, cols := grid_cols } }
  let d := barcode_dim spec
  if d.width = 0 ∨ d.height = 0 then Except.error ("ZeroDivisionError")
  else
    let final_scale := min (max_width / d.width) (max_height / d.height)
    Except.ok (scale_spec final_scale spec)

/-- The `ecc_symbols` dictionary of `barcode` (hccbSvg.py lines 258-263),
keyed by the error-correction level; the four keys "L", "M", "Q", "H" are the
only ones the dictionary holds (any other string raises `KeyError`, which no
claim exercises; the final branch is reached only for "H"). -/
def ecc_symbols (error_correction_level : String) (data_length : ℕ) : ℕ :=
  if error_correction_level = "L" then max 7 (data_length / 5)
  else if error_correction_level = "M" then max 10 (data_length / 4)
  else if error_correction_level = "Q" then max 13 (data_length / 3)
  else max 17 (data_length / 2)

/-- Modelled from the spec: the Error-Correction Framer is the external
`reedsolo` library (`RSCodec(ecc_symbols).encode`), whose code is not part of
this repository. Per the specification it is a systematic Reed-Solomon code,
`Encode(payload, eccSymbolCount) → payload ‖ parity`, with total length at
most 255 bytes per codeword and block splitting required above that: the
payload is split into chunks of `255 - ecc` data bytes (each chunk plus its
parity fills one 255-byte codeword) and every chunk receives `ecc` parity
bytes. The encoded length is therefore
`data_length + ecc * ceil(data_length / (255 - ecc))`. -/
def rs_encoded_length (data_length ecc : ℕ) : ℕ :=
  data_length + ecc * ((data_length + (255 - ecc) - 1) / (255 - ecc))

/-- Squared Euclidean distance between two color triples. The source computes
`np.linalg.norm` / `distance.euclidean` (the square root of this); comparisons
between such distances coincide with comparisons between the squares, which is
all the classifier does, so the embedding stays in `ℚ`. -/
def dist2 (a b : ℚ × ℚ × ℚ) : ℚ :=
  (a.1 - b.1) ^ 2 + (a.2.1 - b.2.1) ^ 2 + (a.2.2 - b.2.2) ^ 2

/-- The minimum of a list of rationals (`min(...)` over the distance values). -/
def list_min : List ℚ → ℚ
  | [] => 0
  | [d] => d
  | d :: e :: rest => min d (list_min (e :: rest))

/-- The index of the FIRST occurrence of the minimum: Python
`min(iterable, key=...)` returns the first element attaining the minimal key,
and `list.index` / first-wins dict iteration then yields its first index. -/
def idx_of_min : List ℚ → ℕ
  | [] => 0
  | [_] => 0
  | d :: e :: rest => if d ≤ list_min (e :: rest) then 0 else idx_of_min (e :: rest) + 1

/-- The color classifier shared by `recognize_hccb` (hccb_reader.py lines
66-70, `min(color_map, key=...)` then `color_map.index`) and `classify_color`
(hccb-opencv.py lines 103-108, `min(distances, key=distances.get)` over an
insertion-ordered dict): the index of the first palette entry at minimal
Euclidean distance from the sample. -/
def classify_color (palette : List (ℚ × ℚ × ℚ)) (sample : ℚ × ℚ × ℚ) : ℕ :=
  idx_of_min (palette.map (dist2 sample))

/-- `FOUR_COLOR_MAP` of hccb_reader.py as RGB triples. -/
def FOUR_COLOR_RGB : List (ℚ × ℚ × ℚ) :=
  [(0, 0, 0), (255, 255, 69), (18, 255, 14), (255, 20, 0)]

/-- `EIGHT_COLOR_MAP` of hccb_reader.py as RGB triples. -/
def EIGHT_COLOR_RGB : List (ℚ × ℚ × ℚ) :=
  [(0, 0, 0), (250, 253, 40), (28, 236, 18), (223, 2, 3),
   (250, 250, 250), (30, 246, 238), (243, 139, 237), (24, 51, 222)]

/-- With 3 bits per symbol the packer emits `8 // 3 = 2` indices per byte. -/
theorem data_to_symbols_three_length (l : List ℕ) :
    (data_to_symbols 3 l).length = 2 * l.length := by
  induction l with
  | nil => rfl
  | cons a t ih =>
      simp only [data_to_symbols, List.flatMap_cons, List.length_append,
        List.length_map, List.length_range, List.length_cons] at ih ⊢
      omega

/-- Every symbol contributes at most 3 bits on the decode side. -/
theorem symbol_bits_length_le (i : ℕ) : (symbol_bits i).length ≤ 3 := by
  unfold symbol_bits; split <;> simp

/-- The flat bit sequence of `decode_colors` has at most 3 bits per symbol. -/
theorem flatMap_symbol_bits_length_le (l : List ℕ) :
    (l.flatMap symbol_bits).length ≤ 3 * l.length := by
  induction l with
  | nil => simp
  | cons a t ih =>
      simp only [List.flatMap_cons, List.length_append, List.length_cons]
      have := symbol_bits_length_le a
      omega

/-- The number of chunks produced by the regrouping is `⌈length / 8⌉`: a final
incomplete chunk still counts. -/
theorem chunks8_length (l : List ℕ) : (chunks8 l).length = (l.length + 7) / 8 := by
  suffices H : ∀ n (l : List ℕ), l.length ≤ n →
      (chunks8 l).length = (l.length + 7) / 8 from H l.length l le_rfl
  intro n
  induction n with
  | zero =>
      intro l hl
      rcases l with _ | ⟨a, t⟩
      · simp [chunks8]
      · simp at hl
  | succ n ih =>
      intro l hl
      rcases l with _ | ⟨b0, _ | ⟨b1, _ | ⟨b2, _ | ⟨b3, _ | ⟨b4, _ | ⟨b5, _ | ⟨b6, _ | ⟨b7, rest⟩⟩⟩⟩⟩⟩⟩⟩
      · simp [chunks8]
      · simp [chunks8]
      · simp [chunks8]
      · simp [chunks8]
      · simp [chunks8]
      · simp [chunks8]
      · simp [chunks8]
      · simp [chunks8]
      · have hrest : rest.length ≤ n := by
          simp only [List.length_cons] at hl
          omega
        have ih2 := ih rest hrest
        have hstep : chunks8 (b0 :: b1 :: b2 :: b3 :: b4 :: b5 :: b6 :: b7 :: rest)
            = [b0, b1, b2, b3, b4, b5, b6, b7] :: chunks8 rest := rfl
        rw [hstep]
        simp only [List.length_cons, ih2]
        omega

/-- When the bit count is not a multiple of 8, the last chunk of the
regrouping is exactly the trailing `length % 8` bits. -/
theorem chunks8_getLast (l : List ℕ) (h : l.length % 8 ≠ 0) :
    (chunks8 l).getLast? = some (l.drop (8 * (l.length / 8))) := by
  suffices H : ∀ n (l : List ℕ), l.length ≤ n → l.length % 8 ≠ 0 →
      (chunks8 l).getLast? = some (l.drop (8 * (l.length / 8))) from H l.length l le_rfl h
  intro n
  induction n with
  | zero =>
      intro l hl hmod
      rcases l with _ | ⟨a, t⟩
      · simp at hmod
      · simp at hl
  | succ n ih =>
      intro l hl hmod
      rcases l with _ | ⟨b0, _ | ⟨b1, _ | ⟨b2, _ | ⟨b3, _ | ⟨b4, _ | ⟨b5, _ | ⟨b6, _ | ⟨b7, rest⟩⟩⟩⟩⟩⟩⟩⟩
      · simp at hmod
      · simp [chunks8]
      · simp [chunks8]
      · simp [chunks8]
      · simp [chunks8]
      · simp [chunks8]
      · simp [chunks8]
      · simp [chunks8]
      · have hlen8 : (b0 :: b1 :: b2 :: b3 :: b4 :: b5 :: b6 :: b7 :: rest).length
            = rest.length + 8 := by
          simp only [List.length_cons]
        have hrestn : rest.length ≤ n := by
          rw [hlen8] at hl
          omega
        have hrestmod : rest.length % 8 ≠ 0 := by
          rw [hlen8] at hmod
          omega
        have ihr := ih rest hrestn hrestmod
        have hne : chunks8 rest ≠ [] := by
          intro hnil
          have hle := chunks8_length rest
          rw [hnil] at hle
          simp only [List.length_nil] at hle
          omega
        have hstep : chunks8 (b0 :: b1 :: b2 :: b3 :: b4 :: b5 :: b6 :: b7 :: rest)
            = [b0, b1, b2, b3, b4, b5, b6, b7] :: chunks8 rest := rfl
        rw [hstep]
        cases hcr : chunks8 rest with
        | nil => exact absurd hcr hne
        | cons c cs =>
            rw [List.getLast?_cons_cons]
            rw [hcr] at ihr
            rw [ihr]
            have harith : 8 * ((b0 :: b1 :: b2 :: b3 :: b4 :: b5 :: b6 :: b7 :: rest).length / 8)
                = 8 + 8 * (rest.length / 8) := by
              rw [hlen8]
              omega
            rw [harith, ← List.drop_drop]
            rfl

/-- Claim C2, counterexample: with 3 bits per symbol the packer emits only
`8 // 3 = 2` indices per byte (not `ceil(8/3) = 3`), and with 2 bits per
symbol the byte `0x1B = 27` (whose most-significant-first 2-bit groups are
`[0, 1, 2, 3]`) is emitted least-significant group first as `[3, 2, 1, 0]`. -/
theorem C2_cex :
    data_to_symbols 3 [255] = [7, 7] ∧
    (data_to_symbols 3 [255]).length ≠ 3 ∧
    data_to_symbols 2 [27] = [3, 2, 1, 0] ∧
    data_to_symbols 2 [27] ≠ [0, 1, 2, 3] := by
  decide

/-- Claim C2, amended: for every byte `b` and `bitsPerSymbol ∈ {2,3}` the
encode-side packer emits `floor(8/bits)` symbol indices (4 for 2-bit, 2 for
3-bit), LEAST-significant group first, each index a `bits`-wide field
`(b >> (i*bits)) & (2^bits - 1)`; for 2 bits all 8 bits of `b` are covered
(the byte is reconstructible from the symbols), while for 3 bits only the low
6 bits survive: the output depends only on `b % 64`, so the top two bits of
every byte are lost. -/
theorem C2_packer (bits value : ℕ) (hb : bits = 2 ∨ bits = 3) (hv : value < 256) :
    data_to_symbols bits [value] =
      (List.range (8 / bits)).map (fun i => value / 2 ^ (i * bits) % 2 ^ bits) ∧
    (data_to_symbols bits [value]).length = 8 / bits ∧
    (bits = 2 →
      (data_to_symbols 2 [value]).foldr (fun s acc => acc * 4 + s) 0 = value) ∧
    (bits = 3 → data_to_symbols 3 [value] = data_to_symbols 3 [value % 64]) := by
  have h1 : ∀ b : ℕ, data_to_symbols b [value] =
      (List.range (8 / b)).map (fun i => value / 2 ^ (i * b) % 2 ^ b) := by
    intro b
    simp [data_to_symbols]
  have h2 : data_to_symbols 2 [value]
      = [value % 4, value / 4 % 4, value / 16 % 4, value / 64 % 4] := by
    rw [h1]
    norm_num [List.range_succ]
  have h3 : ∀ w : ℕ, data_to_symbols 3 [w] = [w % 8, w / 8 % 8] := by
    intro w
    simp only [data_to_symbols, List.flatMap_cons, List.flatMap_nil, List.append_nil]
    norm_num [List.range_succ]
  refine ⟨h1 bits, ?_, ?_, ?_⟩
  · rw [h1]
    simp
  · intro hb2
    rw [h2]
    simp only [List.foldr]
    omega
  · intro hb3
    rw [h3 value, h3 (value % 64)]
    have e1 : value % 64 % 8 = value % 8 := by omega
    have e2 : value % 64 / 8 % 8 = value / 8 % 8 := by omega
    rw [e1, e2]

/-- Claim C2 witness: the amended packer statement at `bits = 3`, byte 72. -/
theorem C2_packer_witness :
    (3 = 2 ∨ 3 = 3) ∧ 72 < 256 ∧ (data_to_symbols 3 [72]).length = 8 / 3 :=
  ⟨Or.inr rfl, by decide, (C2_packer 3 72 (Or.inr rfl) (by decide)).2.1⟩

/-- Claim C3: for every payload length the Specification Calculator keeps
`cols = 24` and computes `required_triangles = ceil(L*8/3)` (characterized
over ℕ: the least multiple bound) and `rows = ceil(required_triangles/24)`
(same characterization); in particular a 2-byte payload yields a 1×24 grid. -/
theorem C3_grid_size (L : ℕ) (hL : 1 ≤ L) :
    grid_cols = 24 ∧
    (L * 8 ≤ 3 * required_triangles L ∧ 3 * required_triangles L < L * 8 + 3) ∧
    (required_triangles L ≤ grid_cols * grid_rows L ∧
      grid_cols * grid_rows L < required_triangles L + grid_cols) ∧
    grid_rows 2 = 1 := by
  refine ⟨rfl, ?_, ?_, by decide⟩
  · unfold required_triangles
    omega
  · unfold grid_rows required_triangles grid_cols
    omega

/-- Claim C3 witness: the grid-size facts at the scenario payload length 2. -/
theorem C3_grid_size_witness : grid_cols = 24 ∧ grid_rows 2 = 1 := by
  have h := C3_grid_size 2 (by decide)
  exact ⟨h.1, h.2.2.2⟩

/-- Claim C5, counterexample: on the base template (12×24 grid, all pads as
in the source) the height computed by `barcode_dim` differs from the spec
formula that includes both background pads — the source omits the bottom
background pad (399.47 versus 408.41). -/
theorem C5_cex : (barcode_dim base_spec).height ≠ spec_stated_height base_spec := by
  norm_num [barcode_dim, spec_stated_height, triangle_row_dim, base_spec]

/-- Claim C5, amended: the total width is both frame pads + both background
pads + 2×rowInset + triangleWidth×cols/2 as claimed, but the total height is
top frame pad + TOP background pad only + (rows+1)×(triangleHeight+stripHeight)
+ bottom frame pad: the bottom background pad is not included. -/
theorem C5_dim_formula (spec : Specification) :
    (barcode_dim spec).width =
      spec.white_frame_pad.left + spec.white_frame_pad.right
      + spec.black_background_pad.left + spec.black_background_pad.right
      + 2 * spec.row_inset + spec.triangle_dim.width * (spec.size.cols : ℚ) / 2 ∧
    (barcode_dim spec).height =
      spec.white_frame_pad.top + spec.white_frame_pad.bottom
      + spec.black_background_pad.top
      + (spec.triangle_dim.height + spec.white_strip_height) * ((spec.size.rows : ℚ) + 1) := by
  constructor <;> simp [barcode_dim, triangle_row_dim] <;> ring

/-- Claim C7, counterexample: for payload length 0 every linear dimension
scales to zero (the sqrt factor is `sqrt(0/12) = 0`), the computed barcode
dimensions are zero, and the division `max_width / width` raises Python
`ZeroDivisionError` — not a `GeometryError`, which does not exist anywhere in
the source. -/
theorem C7_cex :
    calculate_dynamic_spec 0 0 500 500 = Except.error ("ZeroDivisionError") ∧
    (Except.error ("ZeroDivisionError") : Except String Specification) ≠
      Except.error ("GeometryError") := by
  constructor
  · norm_num [calculate_dynamic_spec, grid_rows, required_triangles, grid_cols,
      scale_spec, base_spec, barcode_dim, triangle_row_dim]
  · intro hcontra
    simp only [Except.error.injEq] at hcontra
    exact absurd hcontra (by decide)

/-- Claim C7, amended: for payload length 0 (where the area scale factor is
exactly 0 and hence every computed dimension is 0) the Specification
Calculator fails with an unhandled ZeroDivisionError from
`max_width / barcode_dimensions.width`, for every requested canvas — it does
not raise a `GeometryError`, and no such error type exists in the code. -/
theorem C7_zero_division (w h : ℚ) :
    calculate_dynamic_spec 0 0 w h = Except.error ("ZeroDivisionError") := by
  norm_num [calculate_dynamic_spec, grid_rows, required_triangles, grid_cols,
    scale_spec, base_spec, barcode_dim, triangle_row_dim]

/-- Claim C9: the orchestrator's color list is exactly the palette written
twice (the `2 * 2^bits` synchronization symbols, in palette order) followed
by the payload-derived colors: the prefix of length `2 * 2^bits` is the
doubled palette. -/
theorem C9_sync (bits : ℕ) (encoded : List ℕ) (hb : bits = 2 ∨ bits = 3) :
    colored_data bits encoded
      = (color_map bits ++ color_map bits) ++ data_to_colors bits encoded ∧
    (color_map bits).length = 2 ^ bits ∧
    (sync_colors bits).length = 2 * 2 ^ bits ∧
    (colored_data bits encoded).take (2 * 2 ^ bits) = color_map bits ++ color_map bits := by
  obtain rfl | rfl := hb
  · refine ⟨rfl, by decide, by decide, ?_⟩
    show (sync_colors 2 ++ data_to_colors 2 encoded).take (2 * 2 ^ 2)
      = color_map 2 ++ color_map 2
    exact List.take_left' (by decide)
  · refine ⟨rfl, by decide, by decide, ?_⟩
    show (sync_colors 3 ++ data_to_colors 3 encoded).take (2 * 2 ^ 3)
      = color_map 3 ++ color_map 3
    exact List.take_left' (by decide)

/-- Claim C9 witness: the synchronization prefix facts at `bits = 3` with a
one-byte encoded payload. -/
theorem C9_sync_witness :
    colored_data 3 [72] = (color_map 3 ++ color_map 3) ++ data_to_colors 3 [72] ∧
    (colored_data 3 [72]).take (2 * 2 ^ 3) = color_map 3 ++ color_map 3 := by
  have h := C9_sync 3 [72] (Or.inr rfl)
  exact ⟨h.1, h.2.2.2⟩

/-- Claim C10, counterexample: a grid holding the single symbol BLACK (index
0) yields the flat bit sequence `[0, 0]` — an incomplete final group of 2
bits — yet `decode_colors` returns `[0]`, one byte, not the empty byte list
the claim's "dropped" behavior would produce. -/
theorem C10_cex : decode_colors [[0]] = [0] ∧ decode_colors [[0]] ≠ ([] : List ℕ) := by
  decide

/-- Claim C10, amended: the decode packer concatenates the per-symbol bit
strings and regroups them into slices of 8, but a final incomplete group of
`k < 8` bits is NOT dropped: it contributes one extra output byte whose value
is those `k` bits read as a binary number. -/
theorem C10_last_group (grid : List (List ℕ))
    (h : ((grid.flatten).flatMap symbol_bits).length % 8 ≠ 0) :
    (decode_colors grid).length = ((grid.flatten).flatMap symbol_bits).length / 8 + 1 ∧
    (decode_colors grid).getLast? =
      some (byte_of_bits (((grid.flatten).flatMap symbol_bits).drop
        (8 * (((grid.flatten).flatMap symbol_bits).length / 8)))) := by
  constructor
  · unfold decode_colors
    rw [List.length_map, chunks8_length]
    omega
  · unfold decode_colors
    rw [List.getLast?_map, chunks8_getLast _ h]
    rfl

/-- Claim C10 witness: the amended regrouping statement at the single-BLACK
grid, whose 2 flat bits are not a multiple of 8. -/
theorem C10_last_group_witness :
    (decode_colors [[0]]).length
      = ((([[0]] : List (List ℕ)).flatten).flatMap symbol_bits).length / 8 + 1 :=
  (C10_last_group [[0]] (by decide)).1

/-- Claim C1: the encode-side packer and the decode-side packer do not invert
each other, so the round-trip cannot return the payload. For the payload
`[0x48]` ("H") framed with any 10 parity bytes (the "M"-level count for short
payloads) and 3 bits per symbol, the decoded byte list is strictly shorter
than the framed message (at most 9 bytes from 22 symbols versus 11), so
un-framing cannot recover the payload; concretely, at the packer level,
`[72]` decodes to `[1]` under 3-bit packing and to `[33]` under 2-bit
packing. -/
theorem C1_roundtrip_fails (parity : List ℕ) (hp : parity.length = 10) :
    (decode_colors [data_to_symbols 3 (72 :: parity)]).length < (72 :: parity).length ∧
    decode_colors [data_to_symbols 3 [72]] = [1] ∧
    decode_colors [data_to_symbols 2 [72]] = [33] := by
  refine ⟨?_, by decide, by decide⟩
  have hsym : (data_to_symbols 3 (72 :: parity)).length = 22 := by
    rw [data_to_symbols_three_length]
    simp [hp]
  have hbits := flatMap_symbol_bits_length_le (data_to_symbols 3 (72 :: parity))
  rw [hsym] at hbits
  have hflat : (([data_to_symbols 3 (72 :: parity)] : List (List ℕ)).flatten)
      = data_to_symbols 3 (72 :: parity) := by simp
  have hlen : (decode_colors [data_to_symbols 3 (72 :: parity)]).length
      = (((data_to_symbols 3 (72 :: parity)).flatMap symbol_bits).length + 7) / 8 := by
    unfold decode_colors
    rw [hflat, List.length_map, chunks8_length]
  rw [hlen]
  simp only [List.length_cons, hp]
  omega

/-- Claim C1 witness: the length shortfall at the all-zero parity list. -/
theorem C1_roundtrip_fails_witness :
    (List.replicate 10 0).length = 10 ∧
    (decode_colors [data_to_symbols 3 (72 :: List.replicate 10 0)]).length
      < (72 :: List.replicate 10 0).length :=
  ⟨rfl, (C1_roundtrip_fails (List.replicate 10 0) rfl).1⟩

/-- Claim C6, counterexample: at the claim's own example — a 400-byte payload
at ECC level "M" (100 parity symbols per codeword) — block splitting makes the
encoded message 700 bytes, so the color list has 16 + 2*700 = 1416 entries,
MORE than `rows * cols = 45 * 24 = 1080`: it is not strictly shorter, and
every index the triangle drawer reads is within bounds, so no out-of-range
error occurs at that input. -/
theorem C6_cex :
    (List.replicate 700 (0 : ℕ)).length = rs_encoded_length 400 (ecc_symbols ("M") 400) ∧
    (colored_data 3 (List.replicate 700 0)).length = 1416 ∧
    grid_rows 400 * grid_cols = 1080 ∧
    ¬ (colored_data 3 (List.replicate 700 0)).length < grid_rows 400 * grid_cols ∧
    ∀ idx ∈ draw_triangles_reads { rows := grid_rows 400, cols := grid_cols },
      idx < (colored_data 3 (List.replicate 700 0)).length := by
  have hl : (List.replicate 700 (0 : ℕ)).length = 700 := by
    rw [List.length_replicate]
  have hcl : (colored_data 3 (List.replicate 700 0)).length = 1416 := by
    unfold colored_data data_to_colors
    rw [List.length_append, List.length_map, data_to_symbols_three_length, hl]
    decide
  refine ⟨by rw [hl]; decide, hcl, by decide, ?_, ?_⟩
  · rw [hcl]
    decide
  · intro idx hmem
    rw [hcl]
    simp only [draw_triangles_reads, grid_cols, List.mem_flatMap, List.mem_map,
      List.mem_range] at hmem
    obtain ⟨i, hi, j, hj, rfl⟩ := hmem
    have hr : grid_rows 400 = 45 := by decide
    rw [hr] at hi
    omega

/-- Claim C6, amended: the grid size is computed from the raw payload length
only and never accounts for the 16 synchronization symbols or the
Reed-Solomon parity bytes, so for some payload and ECC level — for example a
100-byte payload at level "M" (25 parity symbols, a single 125-byte codeword)
with 3 bits per symbol — the color list handed to the triangle drawer (16
synchronization symbols plus 2 symbols per encoded byte, 266 in total) is
strictly shorter than `rows * cols = 12 * 24 = 288`, and the drawer's read of
index `i*cols + j = 287` is past the end of the list: encoding fails with an
out-of-range index error. (At the originally named 400-byte example, block
splitting instead makes the list longer than the grid, 1416 > 1080, so the
failure does not occur there.) -/
theorem C6_drawer_overflow (encoded : List ℕ)
    (henc : encoded.length = rs_encoded_length 100 (ecc_symbols ("M") 100)) :
    (colored_data 3 encoded).length = 266 ∧
    grid_rows 100 * grid_cols = 288 ∧
    (colored_data 3 encoded).length < grid_rows 100 * grid_cols ∧
    287 ∈ draw_triangles_reads { rows := grid_rows 100, cols := grid_cols } ∧
    (colored_data 3 encoded).length ≤ 287 := by
  have h125 : encoded.length = 125 := by
    rw [henc]
    decide
  have hcl : (colored_data 3 encoded).length = 266 := by
    unfold colored_data data_to_colors
    rw [List.length_append, List.length_map, data_to_symbols_three_length, h125]
    decide
  have hmem : 287 ∈ draw_triangles_reads { rows := grid_rows 100, cols := grid_cols } := by
    unfold draw_triangles_reads grid_cols
    simp only [List.mem_flatMap, List.mem_map, List.mem_range]
    exact ⟨11, by decide, 23, by decide, by decide⟩
  refine ⟨hcl, by decide, ?_, hmem, ?_⟩
  · rw [hcl]
    decide
  · rw [hcl]
    decide

/-- Claim C6 witness: the drawer overflow at an explicit 125-byte encoded
message (a 100-byte payload plus its 25 level-"M" parity bytes). -/
theorem C6_drawer_overflow_witness :
    (List.replicate 125 0).length = rs_encoded_length 100 (ecc_symbols ("M") 100) ∧
    (colored_data 3 (List.replicate 125 0)).length < grid_rows 100 * grid_cols := by
  have hlen : (List.replicate 125 (0 : ℕ)).length
      = rs_encoded_length 100 (ecc_symbols ("M") 100) := by
    rw [List.length_replicate]
    decide
  have h := C6_drawer_overflow (List.replicate 125 0) hlen
  exact ⟨hlen, h.2.2.1⟩

/-- `barcode_dim` is homogeneous of degree 1 in the linear dimensions: scaling
every linear field of a Specification scales both total dimensions by the
same factor (the grid size is untouched). -/
theorem barcode_dim_scale_spec (c : ℚ) (spec : Specification) :
    (barcode_dim (scale_spec c spec)).width = c * (barcode_dim spec).width ∧
    (barcode_dim (scale_spec c spec)).height = c * (barcode_dim spec).height := by
  constructor <;> simp [barcode_dim, scale_spec, triangle_row_dim] <;> ring

/-- Claim C4: for every payload length `L ≥ 1`, every positive area scale
factor (standing for `sqrt(rows/12)`, which is positive when `rows ≥ 1`) and
every positive canvas, the Specification Calculator succeeds and the total
barcode dimensions of the returned Specification fit within the canvas: the
final uniform scale `min(maxW/width, maxH/height)` is applied to every linear
dimension and `barcode_dim` is homogeneous in them. -/
theorem C4_fit (L : ℕ) (s w h : ℚ) (hL : 1 ≤ L) (hs : 0 < s)
    (hw : 0 < w) (hh : 0 < h) :
    ∃ spec, calculate_dynamic_spec s L w h = Except.ok spec ∧
      (barcode_dim spec).width ≤ w ∧ (barcode_dim spec).height ≤ h ∧
      spec.size = { rows := grid_rows L, cols := grid_cols } := by
  have hW0 : (barcode_dim { base_spec with
      size := { rows := grid_rows L, cols := grid_cols } }).width = 377.3 := by
    norm_num [barcode_dim, triangle_row_dim, base_spec, grid_cols]
  have hH0 : (barcode_dim { base_spec with
      size := { rows := grid_rows L, cols := grid_cols } }).height
      = 50.68 + 26.83 * ((grid_rows L : ℚ) + 1) := by
    simp [barcode_dim, triangle_row_dim, base_spec]
    ring
  have hW0pos : 0 < (barcode_dim { base_spec with
      size := { rows := grid_rows L, cols := grid_cols } }).width := by
    rw [hW0]
    norm_num
  have hH0pos : 0 < (barcode_dim { base_spec with
      size := { rows := grid_rows L, cols := grid_cols } }).height := by
    rw [hH0]
    positivity
  have hsc := barcode_dim_scale_spec s { base_spec with
      size := { rows := grid_rows L, cols := grid_cols } }
  set spec1 := scale_spec s { base_spec with
      size := { rows := grid_rows L, cols := grid_cols } } with hspec1
  have hwpos : 0 < (barcode_dim spec1).width := by
    rw [hsc.1]
    exact mul_pos hs hW0pos
  have hhpos : 0 < (barcode_dim spec1).height := by
    rw [hsc.2]
    exact mul_pos hs hH0pos
  refine ⟨scale_spec (min (w / (barcode_dim spec1).width)
      (h / (barcode_dim spec1).height)) spec1, ?_, ?_, ?_, rfl⟩
  · unfold calculate_dynamic_spec
    rw [if_neg]
    push_neg
    exact ⟨ne_of_gt hwpos, ne_of_gt hhpos⟩
  · rw [(barcode_dim_scale_spec _ spec1).1]
    calc min (w / (barcode_dim spec1).width) (h / (barcode_dim spec1).height)
          * (barcode_dim spec1).width
        ≤ w / (barcode_dim spec1).width * (barcode_dim spec1).width :=
          mul_le_mul_of_nonneg_right (min_le_left _ _) (le_of_lt hwpos)
      _ = w := div_mul_cancel₀ w (ne_of_gt hwpos)
  · rw [(barcode_dim_scale_spec _ spec1).2]
    calc min (w / (barcode_dim spec1).width) (h / (barcode_dim spec1).height)
          * (barcode_dim spec1).height
        ≤ h / (barcode_dim spec1).height * (barcode_dim spec1).height :=
          mul_le_mul_of_nonneg_right (min_le_right _ _) (le_of_lt hhpos)
      _ = h := div_mul_cancel₀ h (ne_of_gt hhpos)

/-- Claim C4 witness: the fit invariant at the scenario payload "HI" (length
2), unit area scale and a 500×500 canvas. -/
theorem C4_fit_witness :
    ∃ spec, calculate_dynamic_spec 1 2 500 500 = Except.ok spec ∧
      (barcode_dim spec).width ≤ 500 ∧ (barcode_dim spec).height ≤ 500 ∧
      spec.size = { rows := grid_rows 2, cols := grid_cols } :=
  C4_fit 2 1 500 500 (by norm_num) (by norm_num) (by norm_num) (by norm_num)

/-- `list_min` is a lower bound for every member of the list. -/
theorem list_min_le (l : List ℚ) : ∀ x ∈ l, list_min l ≤ x := by
  induction l with
  | nil => intro x hx; simp at hx
  | cons d t ih =>
      intro x hx
      cases t with
      | nil =>
          simp only [List.mem_singleton] at hx
          subst hx
          simp [list_min]
      | cons e rest =>
          rcases List.mem_cons.mp hx with rfl | hx2
          · simp [list_min]
          · calc list_min (d :: e :: rest) = min d (list_min (e :: rest)) := rfl
              _ ≤ list_min (e :: rest) := min_le_right _ _
              _ ≤ x := ih x hx2

/-- The first-minimum index is a valid index of a nonempty list. -/
theorem idx_of_min_lt_length (l : List ℚ) (h : l ≠ []) : idx_of_min l < l.length := by
  induction l with
  | nil => exact absurd rfl h
  | cons d t ih =>
      cases t with
      | nil => simp [idx_of_min]
      | cons e rest =>
          by_cases hd : d ≤ list_min (e :: rest)
          · simp [idx_of_min, hd]
          · simp only [idx_of_min, if_neg hd, List.length_cons]
            have := ih (by simp)
            simp only [List.length_cons] at this
            omega

/-- The value at the first-minimum index is the minimum. -/
theorem getD_idx_of_min (l : List ℚ) (h : l ≠ []) :
    l.getD (idx_of_min l) 0 = list_min l := by
  induction l with
  | nil => exact absurd rfl h
  | cons d t ih =>
      cases t with
      | nil => simp [idx_of_min, list_min]
      | cons e rest =>
          by_cases hd : d ≤ list_min (e :: rest)
          · simp only [idx_of_min, if_pos hd, List.getD_cons_zero]
            rw [show list_min (d :: e :: rest) = min d (list_min (e :: rest)) from rfl]
            exact (min_eq_left hd).symm
          · simp only [idx_of_min, if_neg hd, List.getD_cons_succ]
            rw [ih (by simp)]
            rw [show list_min (d :: e :: rest) = min d (list_min (e :: rest)) from rfl]
            exact (min_eq_right (le_of_not_le hd)).symm

/-- Every index strictly before the first-minimum index holds a strictly
larger value: Python `min` keeps the first occurrence of the minimum. -/
theorem list_min_lt_getD_of_lt_idx (l : List ℚ) (j : ℕ) (hj : j < idx_of_min l) :
    list_min l < l.getD j 0 := by
  induction l generalizing j with
  | nil => simp [idx_of_min] at hj
  | cons d t ih =>
      cases t with
      | nil => simp [idx_of_min] at hj
      | cons e rest =>
          by_cases hd : d ≤ list_min (e :: rest)
          · simp [idx_of_min, hd] at hj
          · simp only [idx_of_min, if_neg hd] at hj
            have hmin : list_min (d :: e :: rest) = list_min (e :: rest) := by
              rw [show list_min (d :: e :: rest) = min d (list_min (e :: rest)) from rfl]
              exact min_eq_right (le_of_not_le hd)
            cases j with
            | zero =>
                simp only [List.getD_cons_zero]
                rw [hmin]
                exact not_le.mp hd
            | succ j1 =>
                simp only [List.getD_cons_succ]
                rw [hmin]
                exact ih j1 (by omega)

/-- Squared color distance is nonnegative. -/
theorem dist2_nonneg (a b : ℚ × ℚ × ℚ) : 0 ≤ dist2 a b := by
  unfold dist2
  positivity

/-- Squared color distance vanishes exactly on equal colors. -/
theorem dist2_eq_zero_iff (a b : ℚ × ℚ × ℚ) : dist2 a b = 0 ↔ a = b := by
  obtain ⟨a1, a2, a3⟩ := a
  obtain ⟨b1, b2, b3⟩ := b
  unfold dist2
  simp only [Prod.mk.injEq]
  constructor
  · intro h
    have h1 : (a1 - b1) ^ 2 = 0 := by
      nlinarith [sq_nonneg (a1 - b1), sq_nonneg (a2 - b2), sq_nonneg (a3 - b3)]
    have h2 : (a2 - b2) ^ 2 = 0 := by
      nlinarith [sq_nonneg (a1 - b1), sq_nonneg (a2 - b2), sq_nonneg (a3 - b3)]
    have h3 : (a3 - b3) ^ 2 = 0 := by
      nlinarith [sq_nonneg (a1 - b1), sq_nonneg (a2 - b2), sq_nonneg (a3 - b3)]
    refine ⟨?_, ?_, ?_⟩
    · exact sub_eq_zero.mp (pow_eq_zero_iff (by norm_num) |>.mp h1)
    · exact sub_eq_zero.mp (pow_eq_zero_iff (by norm_num) |>.mp h2)
    · exact sub_eq_zero.mp (pow_eq_zero_iff (by norm_num) |>.mp h3)
  · rintro ⟨rfl, rfl, rfl⟩
    ring

/-- Claim C8: for every sample the classifier returns a valid palette index
whose entry minimizes the (squared, equivalently plain) Euclidean distance to
the sample; among equidistant entries the lowest index wins; and on a sample
exactly equal to entry `i` of a duplicate-free palette the classifier returns
`i` with distance zero. -/
theorem C8_classifier (palette : List (ℚ × ℚ × ℚ)) (c : ℚ × ℚ × ℚ)
    (hp : palette ≠ []) :
    classify_color palette c < palette.length ∧
    (∀ j, j < palette.length →
      dist2 c (palette.getD (classify_color palette c) (0, 0, 0))
        ≤ dist2 c (palette.getD j (0, 0, 0))) ∧
    (∀ j, j < palette.length →
      dist2 c (palette.getD j (0, 0, 0))
          ≤ dist2 c (palette.getD (classify_color palette c) (0, 0, 0)) →
        classify_color palette c ≤ j) ∧
    (palette.Nodup → ∀ i, i < palette.length → c = palette.getD i (0, 0, 0) →
      classify_color palette c = i ∧ dist2 c (palette.getD i (0, 0, 0)) = 0) := by
  set ds := palette.map (dist2 c) with hdsdef
  have hne : ds ≠ [] := by
    simp [hdsdef, hp]
  have hlen : ds.length = palette.length := by
    simp [hdsdef]
  have hkd : classify_color palette c = idx_of_min ds := rfl
  have hk : classify_color palette c < palette.length := by
    rw [hkd, ← hlen]
    exact idx_of_min_lt_length ds hne
  have hds : ∀ j, j < palette.length →
      ds.getD j 0 = dist2 c (palette.getD j (0, 0, 0)) := by
    intro j hj
    rw [List.getD_eq_getElem _ _ (by omega : j < ds.length)]
    rw [List.getD_eq_getElem _ _ hj]
    simp only [hdsdef, List.getElem_map]
  have hmin : dist2 c (palette.getD (classify_color palette c) (0, 0, 0)) = list_min ds := by
    rw [← hds _ hk, hkd]
    exact getD_idx_of_min ds hne
  refine ⟨hk, ?_, ?_, ?_⟩
  · intro j hj
    rw [hmin, ← hds _ hj]
    refine list_min_le ds _ ?_
    rw [List.getD_eq_getElem _ _ (by omega : j < ds.length)]
    exact List.getElem_mem _
  · intro j hj hle
    by_contra hcon
    push_neg at hcon
    have hlt : list_min ds < ds.getD j 0 := by
      refine list_min_lt_getD_of_lt_idx ds j ?_
      omega
    rw [hds _ hj] at hlt
    rw [hmin] at hle
    exact absurd (lt_of_le_of_lt hle hlt) (lt_irrefl _)
  · intro hnodup i hi hc
    have hzero : dist2 c (palette.getD i (0, 0, 0)) = 0 := by
      rw [← hc]
      exact (dist2_eq_zero_iff c c).mpr rfl
    have hminle : list_min ds ≤ 0 := by
      rw [← hzero, ← hds _ hi]
      refine list_min_le ds _ ?_
      rw [List.getD_eq_getElem _ _ (by omega : i < ds.length)]
      exact List.getElem_mem _
    have hminge : 0 ≤ list_min ds := by
      rw [← hmin]
      exact dist2_nonneg _ _
    have hmin0 : list_min ds = 0 := le_antisymm hminle hminge
    have hdk : dist2 c (palette.getD (classify_color palette c) (0, 0, 0)) = 0 := by
      rw [hmin, hmin0]
    have hck : c = palette.getD (classify_color palette c) (0, 0, 0) :=
      ((dist2_eq_zero_iff _ _).mp hdk)
    have hpkpi : palette.getD (classify_color palette c) (0, 0, 0)
        = palette.getD i (0, 0, 0) := by
      rw [← hck, hc]
    refine ⟨?_, hzero⟩
    rw [List.getD_eq_getElem _ _ hk, List.getD_eq_getElem _ _ hi] at hpkpi
    exact (List.Nodup.getElem_inj_iff hnodup).mp hpkpi

/-- Claim C8 witness: the classifier facts at the 8-color RGB palette and the
sample equal to its yellow entry. -/
theorem C8_classifier_witness :
    EIGHT_COLOR_RGB ≠ [] ∧
    classify_color EIGHT_COLOR_RGB (250, 253, 40) < EIGHT_COLOR_RGB.length := by
  have h := C8_classifier EIGHT_COLOR_RGB (250, 253, 40) (by decide)
  exact ⟨by decide, h.1⟩

end HCCB
